import Mathlib

/-!
Verification of the fan-monitor Q-learning control engine.

This file gives a shallow embedding of the adaptive control engine found in
the repository (principally the `claude.py` and `gemini.py` variants, which
the specification's claims cite), and proves or refutes the specification's
claims about it.

Modelling conventions:
* Python `dict`s (the Q-table and its inner action maps) are modelled as
  association lists preserving insertion order; assigning to an existing key
  replaces the value in place, assigning to a fresh key appends at the end,
  exactly as CPython dicts behave.
* Python floats are modelled as rationals; every arithmetic constant in the
  source is an exact decimal so no rounding behaviour is lost.
* Randomness (`np.random.random()` and `np.random.randint(n)`) is passed in
  as explicit parameters `draw : ℚ` and `idx : ℕ`.
* Operations that can raise a Python exception return an `Option`, with
  `none` modelling the raised exception.
-/

namespace FanMonitor

/-- Association-list lookup modelling Python `d[k]` / `k in d`. -/
def lookupA {α β : Type} [DecidableEq α] (k : α) : List (α × β) → Option β
  | [] => none
  | (k₁, v) :: t => if k₁ = k then some v else lookupA k t

/-- Association-list assignment modelling Python `d[k] = v`: replaces in
place if the key exists, appends at the end otherwise (CPython insertion
order). -/
def setA {α β : Type} [DecidableEq α] (k : α) (v : β) : List (α × β) → List (α × β)
  | [] => [(k, v)]
  | (k₁, v₁) :: t => if k₁ = k then (k, v) :: t else (k₁, v₁) :: setA k v t

theorem lookupA_setA_self {α β : Type} [DecidableEq α] (k : α) (v : β)
    (l : List (α × β)) : lookupA k (setA k v l) = some v := by
  induction l with
  | nil => simp [setA, lookupA]
  | cons h t ih =>
    by_cases hk : h.1 = k
    · simp [setA, hk, lookupA]
    · simp [setA, hk, lookupA, ih]

theorem lookupA_setA_ne {α β : Type} [DecidableEq α] (k k₁ : α) (v : β)
    (l : List (α × β)) (hne : k ≠ k₁) :
    lookupA k₁ (setA k v l) = lookupA k₁ l := by
  induction l with
  | nil => simp [setA, lookupA, hne]
  | cons h t ih =>
    by_cases hk : h.1 = k
    · simp [setA, hk, lookupA, hne, Ne.symm hne]
    · simp [setA, hk, lookupA, ih]

theorem setA_of_not_mem {α β : Type} [DecidableEq α] (k : α) (v : β)
    (l : List (α × β)) (h : lookupA k l = none) : setA k v l = l ++ [(k, v)] := by
  induction l with
  | nil => simp [setA]
  | cons p t ih =>
    by_cases hk : p.1 = k
    · simp [lookupA, hk] at h
    · simp [lookupA, hk] at h
      simp [setA, hk, ih h]

/-- A discrete state: a pair of temperature bucket indices. -/
abbrev State := Int × Int

/-- An action: a pair of fan-speed percentages (radiator, chassis). -/
abbrev Action := Int × Int

/-- Inner Q-table map for one state: insertion-ordered action/value pairs. -/
abbrev ActionValues := List (Action × ℚ)

/-- The Q-table: insertion-ordered map from states to action-value maps. -/
abbrev QTable := List (State × ActionValues)

/-- The Q-value of a (state, action) pair, implicitly 0 when unseen. -/
def qGet (q : QTable) (s : State) (a : Action) : ℚ :=
  ((lookupA s q).bind (lookupA a)).getD 0

/-- Python `max(xs)` on a nonempty list, folded left keeping the running
maximum; the accumulator starts at the first element. -/
def maxQAux : List ℚ → ℚ → ℚ
  | [], m => m
  | x :: t, m => maxQAux t (max m x)

/-- Python `max(d.values())`; defaults to 0 on an empty map (the sources
only call it on nonempty maps, where the default is irrelevant). -/
def maxVals (l : ActionValues) : ℚ :=
  match l.map Prod.snd with
  | [] => 0
  | x :: t => maxQAux t x

/-- Python `max(nvme_temps) if nvme_temps else 0.0` from `claude.py`. -/
def maxOrZero (l : List ℚ) : ℚ :=
  match l with
  | [] => 0
  | x :: t => maxQAux t x

/-- Python `max(d, key=d.get)` over the insertion-ordered map: the fold
replaces the current best only on a strictly greater value, so the first
key attaining the maximum wins.  `none` models the `ValueError` raised on
an empty map. -/
def pyMaxByVal (l : ActionValues) : Option Action :=
  match l with
  | [] => none
  | p :: t => some (t.foldl (fun b x => if x.2 > b.2 then x else b) p).1

/-- Python `range(a, b, step)` (for positive `step`), as a list of `Int`. -/
def pyRange (a b step : Nat) : List Int :=
  (List.range' a ((b - a + step - 1) / step) step).map Int.ofNat

/-! Constants of the `claude.py` variant (lines 19-37), exact decimals. -/

def alpha : ℚ := 1 / 10
def gamma : ℚ := 9 / 10
def epsilon : ℚ := 15 / 100
def epsilon_decay : ℚ := 995 / 1000
def epsilon_min : ℚ := 5 / 100
def temp_target : ℚ := 35
def nvme_target : ℚ := 60
def TEMP_HYSTERESIS : ℚ := 2
def NVME_HYSTERESIS : ℚ := 3
def rad_min : Nat := 30
def rad_max : Nat := 100
def chs_min : Nat := 30
def chs_max : Nat := 100
def fan_step : Nat := 10
def CRITICAL_RAD : ℚ := 65
def CRITICAL_NVME : ℚ := 80

/-- `claude.py` `bucket(temp, step=3)`: `int(temp // step)`, i.e. the floor
of the quotient. -/
def bucket (t : ℚ) : Int := ⌊t / 3⌋

/-- `claude.py` `get_possible_actions()`: all (radiator, chassis) speed
pairs from the configured ranges. -/
def get_possible_actions : List Action :=
  (pyRange rad_min (rad_max + 1) fan_step).flatMap
    (fun r => (pyRange chs_min (chs_max + 1) fan_step).map (fun c => (r, c)))

/-- `claude.py` `choose_action` (lines 113-125): explore with a uniformly
random action when the state is unseen or the uniform draw is below
epsilon, otherwise exploit the best known action.  `idx` is the value of
`np.random.randint(len(possible_actions))`. -/
def choose_action (state : State) (q : QTable) (eps_cur draw : ℚ) (idx : Nat) :
    Option Action :=
  if lookupA state q = none ∨ draw < eps_cur then get_possible_actions.get? idx
  else pyMaxByVal ((lookupA state q).getD [])

/-- The efficiency bonus of `claude.py` `calculate_reward` (line 166):
`(200 - fan_rad - fan_chs) / 200.0 * 12`. -/
def efficiency_bonus (fan_rad fan_chs : Int) : ℚ :=
  (200 - (fan_rad : ℚ) - (fan_chs : ℚ)) / 200 * 12

/-- The part of `claude.py` `calculate_reward` before the efficiency-bonus
branch (lines 129-161): the two per-zone piecewise terms and the noise
penalty. -/
def reward_core (temp_rad temp_nvme : ℚ) (fan_rad fan_chs : Int) : ℚ :=
  let rad_error := |temp_rad - temp_target|
  let r₁ : ℚ :=
    if rad_error ≤ TEMP_HYSTERESIS then 30 - rad_error * 1
    else if rad_error ≤ 6 then 20 - rad_error * (1 / 2)
    else if rad_error ≤ 10 then 10 - rad_error * 1
    else -(rad_error * 2)
  let nvme_error := |temp_nvme - nvme_target|
  let r₂ : ℚ :=
    if nvme_error ≤ NVME_HYSTERESIS then 25 - nvme_error * 1
    else if nvme_error ≤ 10 then 18 - nvme_error * (3 / 10)
    else if nvme_error ≤ 15 then 8 - nvme_error * (8 / 10)
    else -(nvme_error * (3 / 2))
  let noise_factor := ((fan_rad : ℚ) + (fan_chs : ℚ)) / 200
  r₁ + r₂ - noise_factor * 3

/-- `claude.py` `calculate_reward` (lines 127-174): per-zone piecewise
rewards, noise penalty, then the efficiency bonus (plus a cool-running
bonus) when both errors are inside the excellent bands. -/
def calculate_reward (temp_rad temp_nvme : ℚ) (fan_rad fan_chs : Int) : ℚ :=
  let rad_error := |temp_rad - temp_target|
  let nvme_error := |temp_nvme - nvme_target|
  let r₃ := reward_core temp_rad temp_nvme fan_rad fan_chs
  if rad_error ≤ 6 ∧ nvme_error ≤ 10 then
    let r₄ := r₃ + efficiency_bonus fan_rad fan_chs
    if temp_rad ≤ temp_target ∧ temp_nvme ≤ nvme_target then r₄ + 8 else r₄
  else r₃

/-- Configuration record of the `gemini.py` variant (`/etc/fan_monitor.conf`
fields actually read by `FanController`). -/
structure GeminiCfg where
  alpha : ℚ
  gamma : ℚ
  eps_min : ℚ
  eps_decay : ℚ
  noise_penalty : ℚ
  target_rad : ℚ
  target_nvme : ℚ
  hyst_temp : ℚ
  hyst_nvme : ℚ
  crit_rad : ℚ
  crit_nvme : ℚ
  fan_rad_min : Nat
  fan_rad_max : Nat
  fan_chs_min : Nat
  fan_chs_max : Nat
  fan_step_cfg : Nat
  history_length : Nat
  bucket_step : ℚ

/-- The efficiency bonus of `gemini.py` `calculate_reward` (line 259):
`(200 - total_fan_speed) / 200.0 * 20.0`. -/
def gemini_efficiency_bonus (fan_rad fan_chs : Int) : ℚ :=
  (200 - ((fan_rad : ℚ) + (fan_chs : ℚ))) / 200 * 20

/-- The bonus guard of `gemini.py` `calculate_reward` (line 257): one-sided
comparisons of the raw temperatures against target plus hysteresis. -/
def gemini_bonus_cond (cfg : GeminiCfg) (temp_rad temp_nvme : ℚ) : Prop :=
  temp_rad < cfg.target_rad + cfg.hyst_temp ∧ temp_nvme < cfg.target_nvme + cfg.hyst_nvme

instance (cfg : GeminiCfg) (a b : ℚ) : Decidable (gemini_bonus_cond cfg a b) :=
  inferInstanceAs (Decidable (And _ _))

/-- `gemini.py` `calculate_reward` (lines 225-268).  The two out-of-band
penalty terms are `rad_error ** 1.5` and `nvme_error ** 1.2`, fractional
floating-point powers with no exact rational value; they are passed in as
parameters `pow15` and `pow12` (none of the claims depends on them). -/
def gemini_calculate_reward (pow15 pow12 : ℚ → ℚ) (cfg : GeminiCfg)
    (temp_rad temp_nvme : ℚ) (fan_rad fan_chs : Int) : ℚ :=
  let rad_error := |temp_rad - cfg.target_rad|
  let nvme_error := |temp_nvme - cfg.target_nvme|
  let r₁ : ℚ := if rad_error ≤ cfg.hyst_temp then 25 else -(pow15 rad_error)
  let r₂ : ℚ := if nvme_error ≤ cfg.hyst_nvme then r₁ + 15 else r₁ - pow12 nvme_error
  let r₃ : ℚ :=
    if gemini_bonus_cond cfg temp_rad temp_nvme then
      r₂ + gemini_efficiency_bonus fan_rad fan_chs
    else r₂
  r₃ - ((fan_rad : ℚ) + (fan_chs : ℚ)) / 200 * cfg.noise_penalty

/-- The part of `gemini.py` `calculate_reward` without the efficiency
bonus (lines 229-248 and 262-266): zone terms and noise penalty. -/
def gemini_reward_core (pow15 pow12 : ℚ → ℚ) (cfg : GeminiCfg)
    (temp_rad temp_nvme : ℚ) (fan_rad fan_chs : Int) : ℚ :=
  let rad_error := |temp_rad - cfg.target_rad|
  let nvme_error := |temp_nvme - cfg.target_nvme|
  let r₁ : ℚ := if rad_error ≤ cfg.hyst_temp then 25 else -(pow15 rad_error)
  let r₂ : ℚ := if nvme_error ≤ cfg.hyst_nvme then r₁ + 15 else r₁ - pow12 nvme_error
  r₂ - ((fan_rad : ℚ) + (fan_chs : ℚ)) / 200 * cfg.noise_penalty

/-- The future-value estimate used by the spec's TD rule: the maximum of
the next state's recorded values, or 0 when the next state has no entries
(`gemini.py` lines 276-278). -/
def nextMax (q : QTable) (s : State) : ℚ :=
  match lookupA s q with
  | some l => if l = [] then 0 else maxVals l
  | none => 0

/-- `gemini.py` `FanController.update_q_table` (lines 271-284). -/
def update_q_table (cfg : GeminiCfg) (q : QTable) (state : State)
    (action : Action) (reward : ℚ) (next_state : State) : QTable :=
  let old_value := qGet q state action
  let next_max := nextMax q next_state
  let new_value := old_value + cfg.alpha * (reward + cfg.gamma * next_max - old_value)
  setA state (setA action new_value ((lookupA state q).getD [])) q

/-- The inline Q-update of `claude.py`'s main loop (lines 300-312): it
first inserts a default `0.0` entry for an unseen (state, action) pair,
then takes the future maximum over the state's (now extended) entries,
with the next state identified with the current state. -/
def claudeQUpdate (q : QTable) (s : State) (a : Action) (reward : ℚ) : QTable :=
  let q₁ := if lookupA s q = none then setA s [] q else q
  let inner₁ := (lookupA s q₁).getD []
  let q₂ := if lookupA a inner₁ = none then setA s (setA a 0 inner₁) q₁ else q₁
  let inner₂ := (lookupA s q₂).getD []
  let max_future : ℚ :=
    if (lookupA s q₂).isSome ∧ inner₂ ≠ [] then maxVals inner₂ else 0
  let old := (lookupA a inner₂).getD 0
  setA s (setA a (old + alpha * (reward + gamma * max_future - old)) inner₂) q₂

/-- The future maximum actually used by `claude.py`'s inline update: when
the (state, action) pair is already recorded it is the spec's `nextMax`,
but for an unseen pair the freshly inserted `0.0` participates in the
maximum. -/
def claudeFutureMax (q : QTable) (s : State) (a : Action) : ℚ :=
  if ((lookupA s q).bind (lookupA a)).isSome then nextMax q s
  else max 0 (nextMax q s)

/-- One step of the temperature-history update shared by the variants:
append the new sample, then pop the oldest entry when the length exceeds
the capacity (`claude.py` lines 272-277, `gemini.py` lines 337-341). -/
def pushHist (n : Nat) (h : List ℚ) (v : ℚ) : List ℚ :=
  let h₁ := h ++ [v]
  if h₁.length > n then h₁.tail else h₁

/-- `np.mean` over the retained history values. -/
def histMean (h : List ℚ) : ℚ := h.sum / h.length

/-- Epsilon decay of `claude.py` (line 331) with its literal constants. -/
def epsDecay (e : ℚ) : ℚ := max epsilon_min (e * epsilon_decay)

/-- The epsilon value after `n` decay calls starting from `claude.py`'s
initial epsilon of 0.15. -/
def epsSeq : Nat → ℚ
  | 0 => epsilon
  | n + 1 => epsDecay (epsSeq n)

/-- Mutable per-cycle state of `claude.py`'s main loop. -/
structure CState where
  hist_rad : List ℚ
  hist_nvme : List ℚ
  fan_rad : Int
  fan_chs : Int
  eps : ℚ
  q : QTable
deriving DecidableEq

/-- Observable outcome of one `claude.py` cycle. -/
structure COut where
  st : CState
  skipped : Bool
  notified : Bool
  action : Option Action
deriving DecidableEq

/-- One iteration of `claude.py`'s main loop (lines 198-352), with the
external world passed in: `rad` is the radiator reading (`none` when
device discovery or the radiator read failed, all of which skip the cycle
identically), `nvme_temps` the successfully parsed NVMe temperatures
(empty when NVMe acquisition failed), `draw`/`idx` the random choices and
`act_ok` whether applying the fan speeds succeeded.  The overall `none`
models an uncaught exception. -/
def claudeCycle (s : CState) (rad : Option ℚ) (nvme_temps : List ℚ)
    (draw : ℚ) (idx : Nat) (act_ok : Bool) : Option COut :=
  match rad with
  | none => some ⟨s, true, false, none⟩
  | some temp_rad_in =>
    let temp_nvme := maxOrZero nvme_temps
    let hr := pushHist 5 s.hist_rad temp_rad_in
    let hn := pushHist 5 s.hist_nvme temp_nvme
    let temp_rad_avg := histMean hr
    let temp_nvme_avg := histMean hn
    let current_state : State := (bucket temp_rad_avg, bucket temp_nvme_avg)
    let chosen : Option (Action × Bool) :=
      if temp_rad_in > CRITICAL_RAD ∨ temp_nvme > CRITICAL_NVME then
        some (((100 : Int), (100 : Int)), true)
      else (choose_action current_state s.q s.eps draw idx).map (fun a => (a, false))
    chosen.map (fun an =>
      let reward := calculate_reward temp_rad_avg temp_nvme_avg an.1.1 an.1.2
      let q₁ := claudeQUpdate s.q current_state an.1 reward
      if act_ok then
        ⟨⟨hr, hn, an.1.1, an.1.2, epsDecay s.eps, q₁⟩, false, an.2, some an.1⟩
      else
        ⟨⟨hr, hn, an.1.1, an.1.2, s.eps, q₁⟩, false, an.2, some an.1⟩)

/-- External inputs of one `claude.py` cycle. -/
structure CIn where
  rad : Option ℚ
  nvme : List ℚ
  draw : ℚ
  idx : Nat
  act_ok : Bool

/-- Whether a cycle's inputs put `claude.py` in the emergency branch: the
radiator read succeeded and either instantaneous reading is critical. -/
def criticalIn (i : CIn) : Bool :=
  match i.rad with
  | some t => decide (t > CRITICAL_RAD ∨ maxOrZero i.nvme > CRITICAL_NVME)
  | none => false

/-- Run `claude.py`'s loop over a list of cycle inputs, counting the
notification events emitted. -/
def claudeRun (s : CState) : List CIn → Option (CState × Nat)
  | [] => some (s, 0)
  | i :: t =>
    (claudeCycle s i.rad i.nvme i.draw i.idx i.act_ok).bind (fun o =>
      (claudeRun o.st t).map (fun sn => (sn.1, (if o.notified then 1 else 0) + sn.2)))

/-- Mutable state of `gemini.py`'s `FanController`. -/
structure GState where
  hist_rad : List ℚ
  hist_nvme : List ℚ
  eps : ℚ
  q : QTable
deriving DecidableEq

/-- Observable outcome of one `gemini.py` cycle. -/
structure GOut where
  st : GState
  skipped : Bool
  notified : Bool
  action : Option Action
deriving DecidableEq

/-- `gemini.py` `_generate_possible_actions` built from the config. -/
def geminiActions (cfg : GeminiCfg) : List Action :=
  (pyRange cfg.fan_rad_min (cfg.fan_rad_max + 1) cfg.fan_step_cfg).flatMap
    (fun r => (pyRange cfg.fan_chs_min (cfg.fan_chs_max + 1) cfg.fan_step_cfg).map
      (fun c => (r, c)))

/-- `gemini.py` `FanController.choose_action` (lines 212-223). -/
def gchoose (cfg : GeminiCfg) (q : QTable) (state : State) (eps draw : ℚ)
    (idx : Nat) : Option Action :=
  if lookupA state q = none ∨ draw < eps then (geminiActions cfg).get? idx
  else pyMaxByVal ((lookupA state q).getD [])

/-- One iteration of `gemini.py` `FanController.run` (lines 322-383).
Reading failures arrive as `none`; `set_fan_speeds` swallows its own
exceptions so actuation failure does not alter the control flow. -/
def geminiCycle (pow15 pow12 : ℚ → ℚ) (cfg : GeminiCfg) (s : GState)
    (rad nvme : Option ℚ) (draw : ℚ) (idx : Nat) : Option GOut :=
  match rad, nvme with
  | some temp_rad, some temp_nvme =>
    let hr := pushHist cfg.history_length s.hist_rad temp_rad
    let hn := pushHist cfg.history_length s.hist_nvme temp_nvme
    let rad_avg := histMean hr
    let nvme_avg := histMean hn
    let current_state : State :=
      (⌊rad_avg / cfg.bucket_step⌋, ⌊nvme_avg / cfg.bucket_step⌋)
    let chosen : Option (Action × Bool) :=
      if rad_avg > cfg.crit_rad ∨ nvme_avg > cfg.crit_nvme then
        some (((100 : Int), (100 : Int)), true)
      else (gchoose cfg s.q current_state s.eps draw idx).map (fun a => (a, false))
    chosen.map (fun an =>
      let reward := gemini_calculate_reward pow15 pow12 cfg rad_avg nvme_avg an.1.1 an.1.2
      let q₁ := update_q_table cfg s.q current_state an.1 reward current_state
      let eps₁ := max cfg.eps_min (s.eps * cfg.eps_decay)
      ⟨⟨hr, hn, eps₁, q₁⟩, false, an.2, some an.1⟩)
  | _, _ => some ⟨s, true, false, none⟩

/-! Persistence (`claude.py` `save_q_table`/`load_q_table`, lines 56-99,
and `gemini.py` `QTableManager`, lines 50-107).  Python strings are
modelled as `List Char`; `str(n)` for an integer is its decimal
representation with an optional leading minus sign, `int(s)` parses it
back and `s.split('_')` splits on the underscore delimiter. -/

/-- Parse one decimal digit character, as Python `int` does per digit. -/
def charToDigit (c : Char) : Option Nat :=
  if '0' ≤ c ∧ c ≤ '9' then some (c.toNat - '0'.toNat) else none

/-- Decimal representation of a natural number, most significant digit
first: Python `str(n)` for `n ≥ 0`. -/
def natChars (n : Nat) : List Char :=
  if n = 0 then ['0'] else ((Nat.digits 10 n).map Nat.digitChar).reverse

/-- Python `str(i)` for an arbitrary integer. -/
def intChars (i : Int) : List Char :=
  if i < 0 then '-' :: natChars i.natAbs else natChars i.toNat

/-- Python `int(s)` for a string of decimal digits; `none` models the
`ValueError` on empty or non-digit input. -/
def parseNatChars (cs : List Char) : Option Nat :=
  if cs = [] then none
  else cs.foldl (fun acc c => acc.bind (fun a => (charToDigit c).map (fun d => a * 10 + d)))
    (some 0)

/-- Python `int(s)` for an optionally negated decimal string. -/
def parseIntChars (cs : List Char) : Option Int :=
  match cs with
  | [] => none
  | c :: t =>
    if c = '-' then (parseNatChars t).map (fun n => -(n : Int))
    else (parseNatChars (c :: t)).map (fun n => (n : Int))

/-- Python `s.split('_')`. -/
def splitUnd : List Char → List (List Char)
  | [] => [[]]
  | c :: t =>
    if c = '_' then [] :: splitUnd t
    else
      match splitUnd t with
      | [] => [[c]]
      | h :: r => (c :: h) :: r

/-- The serialized key of an integer pair: `f"{a}_{b}"` (`claude.py` lines
62 and 65, `gemini.py` `_key_to_str`). -/
def keyChars (p : Int × Int) : List Char :=
  intChars p.1 ++ '_' :: intChars p.2

/-- Decode a serialized key back to an integer pair: split on the
underscore and parse the two decimal components (`claude.py` lines 86-92,
`gemini.py` `_str_to_key`).  `none` models a parse failure. -/
def strToKey (cs : List Char) : Option (Int × Int) :=
  match splitUnd cs with
  | [a, b] => (parseIntChars a).bind (fun x => (parseIntChars b).map (fun y => (x, y)))
  | _ => none

/-- Serialize a Q-table: every state key and action key becomes its string
encoding; values pass through JSON unchanged. -/
def saveTable {V : Type} (q : List ((Int × Int) × List ((Int × Int) × V))) :
    List (List Char × List (List Char × V)) :=
  q.map (fun sv => (keyChars sv.1, sv.2.map (fun av => (keyChars av.1, av.2))))

/-- Deserialize the inner action map of one state. -/
def loadInner {V : Type} : List (List Char × V) → Option (List ((Int × Int) × V))
  | [] => some []
  | (ks, v) :: t =>
    (strToKey ks).bind (fun a => (loadInner t).map (fun r => (a, v) :: r))

/-- Deserialize a saved Q-table; `none` models a key parse failure (which
the sources catch, falling back to an empty table). -/
def loadTable {V : Type} :
    List (List Char × List (List Char × V)) → Option (List ((Int × Int) × List ((Int × Int) × V)))
  | [] => some []
  | (ks, acts) :: t =>
    (strToKey ks).bind (fun s =>
      (loadInner acts).bind (fun inner =>
        (loadTable t).map (fun r => (s, inner) :: r)))

/-! Auxiliary lemmas about the running-maximum fold. -/

theorem maxQAux_mono {a b : ℚ} (t : List ℚ) (h : a ≤ b) :
    maxQAux t a ≤ maxQAux t b := by
  induction t generalizing a b with
  | nil => exact h
  | cons x t ih => exact ih (max_le_max_right x h)

theorem le_maxQAux (t : List ℚ) (m : ℚ) : m ≤ maxQAux t m := by
  induction t generalizing m with
  | nil => exact le_refl m
  | cons x t ih => exact le_trans (le_max_left m x) (ih (max m x))

theorem mem_le_maxQAux {x : ℚ} (t : List ℚ) (m : ℚ) (h : x ∈ t) :
    x ≤ maxQAux t m := by
  induction t generalizing m with
  | nil => cases h
  | cons y t ih =>
    rcases List.mem_cons.mp h with rfl | h₁
    · exact le_trans (le_max_right m x) (le_maxQAux t (max m x))
    · exact ih (max m y) h₁

theorem maxQAux_eq_or_mem (t : List ℚ) (m : ℚ) :
    maxQAux t m = m ∨ maxQAux t m ∈ t := by
  induction t generalizing m with
  | nil => exact Or.inl rfl
  | cons x t ih =>
    rcases ih (max m x) with h | h
    · rcases max_choice m x with h₁ | h₁
      · exact Or.inl (by rw [maxQAux, h, h₁])
      · exact Or.inr (by rw [maxQAux, h, h₁]; exact List.mem_cons_self x t)
    · exact Or.inr (List.mem_cons_of_mem x h)

theorem maxQAux_append (t : List ℚ) (m x : ℚ) :
    maxQAux (t ++ [x]) m = max (maxQAux t m) x := by
  induction t generalizing m with
  | nil => rfl
  | cons y t ih => exact ih (max m y)

theorem maxVals_le (l : ActionValues) (p : Action × ℚ) (h : p ∈ l) :
    p.2 ≤ maxVals l := by
  match l with
  | [] => cases h
  | q :: t =>
    rcases List.mem_cons.mp h with rfl | h₁
    · exact le_maxQAux (t.map Prod.snd) p.2
    · exact mem_le_maxQAux (t.map Prod.snd) q.2 (List.mem_map_of_mem Prod.snd h₁)

theorem maxVals_mem (l : ActionValues) (h : l ≠ []) :
    ∃ p ∈ l, p.2 = maxVals l := by
  match l with
  | [] => exact absurd rfl h
  | q :: t =>
    rcases maxQAux_eq_or_mem (t.map Prod.snd) q.2 with h₁ | h₁
    · exact ⟨q, List.mem_cons_self q t, h₁.symm⟩
    · rcases List.mem_map.mp h₁ with ⟨p, hp, hv⟩
      exact ⟨p, List.mem_cons_of_mem q hp, hv⟩

theorem maxVals_append_single (l : ActionValues) (a : Action) (x : ℚ) :
    maxVals (l ++ [(a, x)]) = if l = [] then x else max (maxVals l) x := by
  match l with
  | [] => rfl
  | q :: t =>
    simp only [List.cons_append, maxVals, List.map_cons, List.map_append, List.map_nil,
      List.cons_ne_nil, if_neg, reduceCtorEq]
    exact maxQAux_append (t.map Prod.snd) q.2 x

/-! History-buffer lemmas (claim C8). -/

theorem pushHist_length_le (n : Nat) (h : List ℚ) (v : ℚ) (hn : 1 ≤ n)
    (hl : h.length ≤ n) : (pushHist n h v).length ≤ n := by
  unfold pushHist
  by_cases hc : (h ++ [v]).length > n
  · rw [if_pos hc]
    simp only [List.length_tail, List.length_append, List.length_singleton] at *
    omega
  · rw [if_neg hc]
    simp only [List.length_append, List.length_singleton] at *
    omega

theorem pushHist_of_lt (n : Nat) (h : List ℚ) (v : ℚ) (hl : h.length < n) :
    pushHist n h v = h ++ [v] := by
  unfold pushHist
  have hc : ¬((h ++ [v]).length > n) := by
    simp only [List.length_append, List.length_singleton]; omega
  rw [if_neg hc]

theorem pushHist_of_full (n : Nat) (h : List ℚ) (v : ℚ) (hn : 1 ≤ n)
    (hl : h.length = n) : pushHist n h v = h.tail ++ [v] := by
  unfold pushHist
  have hpos : h ≠ [] := by
    intro h₀; rw [h₀] at hl; simp at hl; omega
  have : (h ++ [v]).length > n := by simp [List.length_append]; omega
  simp only [this, if_pos]
  match h, hpos with
  | x :: t, _ => rfl

/-! Epsilon-decay lemmas (claim C7). -/

theorem epsDecay_le_self {e : ℚ} (h : epsilon_min ≤ e) : epsDecay e ≤ e := by
  unfold epsDecay
  have h₀ : (0 : ℚ) ≤ e := le_trans (by norm_num [epsilon_min]) h
  have : e * epsilon_decay ≤ e := by
    unfold epsilon_decay; nlinarith
  exact max_le h this

theorem epsilon_min_le_epsDecay (e : ℚ) : epsilon_min ≤ epsDecay e :=
  le_max_left _ _

theorem epsSeq_bounds : ∀ n : Nat, epsilon_min ≤ epsSeq n ∧ epsSeq (n + 1) ≤ epsSeq n := by
  intro n
  induction n with
  | zero =>
    constructor
    · simp only [epsSeq]
      norm_num [epsilon, epsilon_min]
    · exact epsDecay_le_self (by norm_num [epsSeq, epsilon, epsilon_min])
  | succ k ih =>
    refine ⟨epsilon_min_le_epsDecay _, ?_⟩
    exact epsDecay_le_self (epsilon_min_le_epsDecay _)

/-! Control-flow lemmas about the embedded cycles. -/

theorem claudeCycle_sensor_fail (s : CState) (nv : List ℚ) (d : ℚ) (i : Nat)
    (ok : Bool) : claudeCycle s none nv d i ok = some ⟨s, true, false, none⟩ := rfl

theorem claudeCycle_eps_eq (s : CState) (t : ℚ) (nv : List ℚ) (d : ℚ) (i : Nat)
    (ok : Bool) (o : COut) (h : claudeCycle s (some t) nv d i ok = some o) :
    o.st.eps = if ok then epsDecay s.eps else s.eps := by
  dsimp only [claudeCycle] at h
  rcases Option.map_eq_some'.mp h with ⟨p, hp, ho⟩
  subst ho
  cases ok <;> rfl

theorem claudeCycle_notified_eq (s : CState) (r : Option ℚ) (nv : List ℚ)
    (d : ℚ) (i : Nat) (ok : Bool) (o : COut)
    (h : claudeCycle s r nv d i ok = some o) :
    o.notified = criticalIn ⟨r, nv, d, i, ok⟩ := by
  match r with
  | none =>
    rw [claudeCycle_sensor_fail] at h
    cases h
    rfl
  | some t =>
    dsimp only [claudeCycle] at h
    by_cases hcrit : t > CRITICAL_RAD ∨ maxOrZero nv > CRITICAL_NVME
    · rw [if_pos hcrit] at h
      rcases Option.map_eq_some'.mp h with ⟨p, hp, ho⟩
      cases hp
      subst ho
      have : criticalIn ⟨some t, nv, d, i, ok⟩ = true := by
        simp [criticalIn, hcrit]
      rw [this]
      cases ok <;> rfl
    · rw [if_neg hcrit] at h
      rcases Option.map_eq_some'.mp h with ⟨p, hp, ho⟩
      rcases Option.map_eq_some'.mp hp with ⟨a, _, hpa⟩
      subst hpa
      subst ho
      have : criticalIn ⟨some t, nv, d, i, ok⟩ = false := by
        simp [criticalIn, hcrit]
      rw [this]
      cases ok <;> rfl

theorem claudeCycle_crit_action (s : CState) (t : ℚ) (nv : List ℚ) (d : ℚ)
    (i : Nat) (ok : Bool)
    (hcrit : t > CRITICAL_RAD ∨ maxOrZero nv > CRITICAL_NVME) :
    (claudeCycle s (some t) nv d i ok).bind COut.action = some (100, 100) := by
  dsimp only [claudeCycle]
  rw [if_pos hcrit]
  cases ok <;> rfl

theorem claudeCycle_crit_indep (s : CState) (t : ℚ) (nv : List ℚ)
    (d d₁ : ℚ) (i i₁ : Nat) (ok : Bool)
    (hcrit : t > CRITICAL_RAD ∨ maxOrZero nv > CRITICAL_NVME) :
    claudeCycle s (some t) nv d i ok = claudeCycle s (some t) nv d₁ i₁ ok := by
  dsimp only [claudeCycle]
  rw [if_pos hcrit, if_pos hcrit]

theorem geminiCycle_crit_action (p₁ p₂ : ℚ → ℚ) (cfg : GeminiCfg) (s : GState)
    (tr tn d : ℚ) (i : Nat)
    (hcrit : histMean (pushHist cfg.history_length s.hist_rad tr) > cfg.crit_rad ∨
      histMean (pushHist cfg.history_length s.hist_nvme tn) > cfg.crit_nvme) :
    (geminiCycle p₁ p₂ cfg s (some tr) (some tn) d i).bind GOut.action
      = some (100, 100) := by
  dsimp only [geminiCycle]
  rw [if_pos hcrit]
  rfl

theorem geminiCycle_noncrit_action (p₁ p₂ : ℚ → ℚ) (cfg : GeminiCfg)
    (s : GState) (tr tn d : ℚ) (i : Nat)
    (hncrit : ¬(histMean (pushHist cfg.history_length s.hist_rad tr) > cfg.crit_rad ∨
      histMean (pushHist cfg.history_length s.hist_nvme tn) > cfg.crit_nvme)) :
    (geminiCycle p₁ p₂ cfg s (some tr) (some tn) d i).bind GOut.action
      = gchoose cfg s.q
          (⌊histMean (pushHist cfg.history_length s.hist_rad tr) / cfg.bucket_step⌋,
           ⌊histMean (pushHist cfg.history_length s.hist_nvme tn) / cfg.bucket_step⌋)
          s.eps d i := by
  dsimp only [geminiCycle]
  rw [if_neg hncrit]
  cases hg : gchoose cfg s.q
      (⌊histMean (pushHist cfg.history_length s.hist_rad tr) / cfg.bucket_step⌋,
       ⌊histMean (pushHist cfg.history_length s.hist_nvme tn) / cfg.bucket_step⌋)
      s.eps d i with
  | none => rfl
  | some a => rfl

/-- C8: each zone's history buffer always has length at most N, evicts
oldest-first (FIFO) when a new sample arrives at full capacity, appends
when below capacity, and the smoothed reading is the arithmetic mean of
exactly the retained values; a buffer of capacity 5 fed 7 samples retains
exactly the last 5 in order. -/
theorem claim_C8_history_buffer :
    (∀ (n : Nat) (h : List ℚ) (v : ℚ), 1 ≤ n → h.length ≤ n →
      (pushHist n h v).length ≤ n) ∧
    (∀ (n : Nat) (h : List ℚ) (v : ℚ), 1 ≤ n → h.length = n →
      pushHist n h v = h.tail ++ [v]) ∧
    (∀ (n : Nat) (h : List ℚ) (v : ℚ), h.length < n → pushHist n h v = h ++ [v]) ∧
    (∀ a₁ a₂ a₃ a₄ a₅ a₆ a₇ : ℚ,
      List.foldl (pushHist 5) [] [a₁, a₂, a₃, a₄, a₅, a₆, a₇] = [a₃, a₄, a₅, a₆, a₇] ∧
      histMean [a₃, a₄, a₅, a₆, a₇] = (a₃ + a₄ + a₅ + a₆ + a₇) / 5) := by
  refine ⟨pushHist_length_le, pushHist_of_full, fun n h v hl => pushHist_of_lt n h v hl, ?_⟩
  intro a₁ a₂ a₃ a₄ a₅ a₆ a₇
  constructor
  · simp [List.foldl, pushHist]
  · show (a₃ + (a₄ + (a₅ + (a₆ + (a₇ + 0))))) / (5 : Nat) = (a₃ + a₄ + a₅ + a₆ + a₇) / 5
    norm_num
    ring_nf

/-- Witness for C8 at concrete inputs: capacity 5, a full buffer of five
samples receiving a sixth. -/
theorem claim_C8_history_buffer_witness :
    (pushHist 5 [1, 2, 3, 4, 5] 6).length ≤ 5 ∧
    pushHist 5 [1, 2, 3, 4, 5] 6 = [2, 3, 4, 5, 6] ∧
    pushHist 5 [1, 2] 3 = [1, 2, 3] := by
  refine ⟨claim_C8_history_buffer.1 5 [1, 2, 3, 4, 5] 6 (by decide) (by decide), ?_, ?_⟩
  · have h := claim_C8_history_buffer.2.1 5 [1, 2, 3, 4, 5] 6 (by decide) (by decide)
    rw [h]
    rfl
  · have h := claim_C8_history_buffer.2.2.1 5 [1, 2] 3 (by decide)
    rw [h]
    rfl

/-- C7 counterexample: the claim says decay is applied exactly once per
control cycle after the action has been chosen, but in `claude.py` a cycle
whose fan actuation fails executes `continue` before the decay line: an
action is chosen and fed to the learning update, yet epsilon stays at
0.15 even though a decay call would change it. -/
theorem claim_C7_counterexample :
    (claudeCycle ⟨[], [], 50, 50, 15/100, []⟩ (some 40) [50] 1 0 false).map
      (fun o => (o.st.eps, o.action)) = some (15/100, some (30, 30)) ∧
    epsDecay (15/100) ≠ 15/100 := by
  constructor
  · norm_num [claudeCycle, choose_action, lookupA, get_possible_actions, pyRange,
      pushHist, histMean, bucket, maxOrZero, maxQAux, calculate_reward, reward_core,
      efficiency_bonus, claudeQUpdate, setA, maxVals, CRITICAL_RAD, CRITICAL_NVME,
      temp_target, nvme_target, TEMP_HYSTERESIS, NVME_HYSTERESIS, alpha, gamma,
      rad_min, rad_max, chs_min, chs_max, fan_step, List.range']
  · norm_num [epsDecay, epsilon_min, epsilon_decay]

/-- C7 (amended): the epsilon sequence obtained by repeated decay calls is
monotonically non-increasing and bounded below by epsilon_min, each decay
computing max(epsilon_min, epsilon * epsilon_decay); a cycle whose
actuation succeeds applies the decay exactly once, after the action was
chosen, but a `claude.py` cycle whose actuation fails skips the decay. -/
theorem claim_C7_epsilon_decay :
    (∀ n : Nat, epsilon_min ≤ epsSeq n ∧ epsSeq (n + 1) ≤ epsSeq n) ∧
    (∀ e : ℚ, epsilon_min ≤ e → epsilon_min ≤ epsDecay e ∧ epsDecay e ≤ e) ∧
    (∀ (s : CState) (t : ℚ) (nv : List ℚ) (d : ℚ) (i : Nat) (o : COut),
      claudeCycle s (some t) nv d i true = some o → o.st.eps = epsDecay s.eps) ∧
    (∀ (s : CState) (t : ℚ) (nv : List ℚ) (d : ℚ) (i : Nat) (o : COut),
      claudeCycle s (some t) nv d i false = some o → o.st.eps = s.eps) := by
  refine ⟨epsSeq_bounds, fun e he => ⟨epsilon_min_le_epsDecay e, epsDecay_le_self he⟩, ?_, ?_⟩
  · intro s t nv d i o h
    exact claudeCycle_eps_eq s t nv d i true o h
  · intro s t nv d i o h
    exact claudeCycle_eps_eq s t nv d i false o h

/-- Witness for C7: one decay step from the initial epsilon 0.15, and one
successful concrete cycle whose epsilon becomes exactly the decayed value. -/
theorem claim_C7_epsilon_decay_witness :
    (epsilon_min ≤ epsDecay (15/100) ∧ epsDecay (15/100) ≤ 15/100) ∧
    (597/4000 : ℚ) = epsDecay (15/100) := by
  have h : claudeCycle ⟨[], [], 50, 50, 15/100, []⟩ (some 40) [50] 1 0 true
      = some ⟨⟨[40], [50], 30, 30, 597/4000, [((13, 16), [((30, 30), 4)])]⟩,
          false, false, some (30, 30)⟩ := by
    norm_num [claudeCycle, choose_action, lookupA, get_possible_actions, pyRange,
      pushHist, histMean, bucket, maxOrZero, maxQAux, calculate_reward, reward_core,
      efficiency_bonus, claudeQUpdate, setA, maxVals, CRITICAL_RAD, CRITICAL_NVME,
      temp_target, nvme_target, TEMP_HYSTERESIS, NVME_HYSTERESIS, alpha, gamma,
      rad_min, rad_max, chs_min, chs_max, fan_step, List.range',
      epsDecay, epsilon_min, epsilon_decay]
  exact ⟨claim_C7_epsilon_decay.2.1 (15/100) (by norm_num [epsilon_min]),
    claim_C7_epsilon_decay.2.2.1 ⟨[], [], 50, 50, 15/100, []⟩ 40 [50] 1 0 _ h⟩

/-- C3 counterexample: in `claude.py` a failed NVMe acquisition (no
readable NVMe temperature) is coerced to a reading of 0.0 and the cycle
proceeds: the history buffers change, an action is chosen and applied and
the Q-table is updated, contradicting the claim that a failed sampler
acquisition leaves all state unchanged with no actuation or learning. -/
theorem claim_C3_counterexample :
    (claudeCycle ⟨[], [], 50, 50, 15/100, []⟩ (some 40) [] 1 0 true).map
      (fun o => (o.st.hist_rad, o.st.hist_nvme, o.st.q, o.action))
      = some ([40], [0], [((13, 0), [((30, 30), -(367/50))])], some (30, 30)) := by
  norm_num [claudeCycle, choose_action, lookupA, get_possible_actions, pyRange,
    pushHist, histMean, bucket, maxOrZero, maxQAux, calculate_reward, reward_core,
    efficiency_bonus, claudeQUpdate, setA, maxVals, CRITICAL_RAD, CRITICAL_NVME,
    temp_target, nvme_target, TEMP_HYSTERESIS, NVME_HYSTERESIS, alpha, gamma,
    rad_min, rad_max, chs_min, chs_max, fan_step, List.range']

/-- C3 (amended): when the radiator reading is unavailable (`claude.py`)
or either reading is unavailable (`gemini.py`), the cycle performs no
actuation and no learning and leaves the history buffers, the Q-table and
epsilon unchanged, retrying next cycle; but `claude.py` treats a failed
NVMe acquisition as a 0.0 reading and proceeds with the full cycle. -/
theorem claim_C3_sensor_failure_skips :
    (∀ (s : CState) (nv : List ℚ) (d : ℚ) (i : Nat) (ok : Bool),
      claudeCycle s none nv d i ok = some ⟨s, true, false, none⟩) ∧
    (∀ (p₁ p₂ : ℚ → ℚ) (cfg : GeminiCfg) (s : GState) (n : Option ℚ) (d : ℚ) (i : Nat),
      geminiCycle p₁ p₂ cfg s none n d i = some ⟨s, true, false, none⟩) ∧
    (∀ (p₁ p₂ : ℚ → ℚ) (cfg : GeminiCfg) (s : GState) (r : Option ℚ) (d : ℚ) (i : Nat),
      geminiCycle p₁ p₂ cfg s r none d i = some ⟨s, true, false, none⟩) := by
  refine ⟨fun s nv d i ok => rfl, ?_, ?_⟩
  · intro p₁ p₂ cfg s n d i
    cases n <;> rfl
  · intro p₁ p₂ cfg s r d i
    cases r <;> rfl

/-- C4 counterexample: two consecutive `claude.py` cycles with a critical
instantaneous radiator reading of 70 °C emit two notification events, not
the single edge-triggered event the claim requires for a run of
consecutive critical cycles. -/
theorem claim_C4_counterexample :
    (claudeRun ⟨[], [], 50, 50, 15/100, []⟩
      [⟨some 70, [], 0, 0, true⟩, ⟨some 70, [], 0, 0, true⟩]).map (fun x => x.2)
      = some 2 := by
  norm_num [claudeRun, claudeCycle, choose_action, lookupA, get_possible_actions,
    pyRange, pushHist, histMean, bucket, maxOrZero, maxQAux, calculate_reward,
    reward_core, efficiency_bonus, claudeQUpdate, setA, maxVals, CRITICAL_RAD,
    CRITICAL_NVME, temp_target, nvme_target, TEMP_HYSTERESIS, NVME_HYSTERESIS,
    alpha, gamma, rad_min, rad_max, chs_min, chs_max, fan_step, List.range',
    epsDecay, epsilon_min, epsilon_decay]

/-- C4 (amended): the critical-temperature notification of `claude.py` is
level-triggered, not edge-triggered: over any sequence of cycles, the
number of notification events equals the number of non-skipped cycles in
which a critical instantaneous reading holds, so a run of n consecutive
critical cycles emits n notifications. -/
theorem claim_C4_notification_level_triggered :
    ∀ (inputs : List CIn) (s : CState) (out : CState × Nat),
      claudeRun s inputs = some out → out.2 = inputs.countP criticalIn := by
  intro inputs
  induction inputs with
  | nil =>
    intro s out h
    cases h
    rfl
  | cons i t ih =>
    intro s out h
    simp only [claudeRun] at h
    rcases Option.bind_eq_some.mp h with ⟨o, hc, hf⟩
    rcases Option.map_eq_some'.mp hf with ⟨sn, hr, hout⟩
    subst hout
    have hn := claudeCycle_notified_eq s i.rad i.nvme i.draw i.idx i.act_ok o hc
    have hni : criticalIn ⟨i.rad, i.nvme, i.draw, i.idx, i.act_ok⟩ = criticalIn i := by
      cases i
      rfl
    rw [hni] at hn
    have hcnt := ih o.st sn hr
    simp only [List.countP_cons]
    show (if o.notified then 1 else 0) + sn.2 = _
    rw [hn, hcnt]
    cases criticalIn i <;> simp [Nat.add_comm]

/-- Witness for C4: a one-cycle run whose radiator read fails is not
critical and emits zero notifications. -/
theorem claim_C4_notification_level_triggered_witness :
    ((⟨[], [], 50, 50, 15/100, []⟩, 0) : CState × Nat).2
      = [(⟨none, [], 0, 0, true⟩ : CIn)].countP criticalIn :=
  claim_C4_notification_level_triggered [⟨none, [], 0, 0, true⟩]
    ⟨[], [], 50, 50, 15/100, []⟩ (⟨[], [], 50, 50, 15/100, []⟩, 0) rfl

/-- C1 counterexample: `gemini.py` evaluates the critical check on the
smoothed averages, not on the instantaneous readings.  With critical
radiator threshold 65 and history [30, 30, 30, 30], an instantaneous
radiator reading of 70 °C (> 65) yields an average of 38 °C, the override
does not fire and the cycle applies the policy's exploration action
(30, 30) instead of maximum speed. -/
theorem claim_C1_counterexample :
    (geminiCycle (fun _ => 0) (fun _ => 0)
      ⟨1/10, 9/10, 5/100, 995/1000, 0, 35, 60, 2, 3, 65, 80, 30, 100, 30, 100, 10, 5, 2⟩
      ⟨[30, 30, 30, 30], [40, 40, 40, 40], 15/100, []⟩
      (some 70) (some 40) 1 0).bind GOut.action = some (30, 30) ∧
    (70 : ℚ) > 65 := by
  constructor
  · norm_num [geminiCycle, gchoose, geminiActions, pyRange, pushHist, histMean,
      update_q_table, qGet, nextMax, gemini_calculate_reward, gemini_bonus_cond,
      gemini_efficiency_bonus, lookupA, setA, maxVals, maxQAux, List.range']
  · norm_num

/-- C1 (amended): `claude.py` forces the action to (100, 100) and skips
the policy whenever either instantaneous reading exceeds its critical
threshold (the cycle outcome is then independent of the random draws);
`gemini.py` applies the same override but evaluates the thresholds
against the smoothed averages, consulting the policy whenever the
averages are below them even if an instantaneous reading is critical. -/
theorem claim_C1_emergency_override :
    (∀ (s : CState) (t : ℚ) (nv : List ℚ) (d : ℚ) (i : Nat) (ok : Bool),
      t > CRITICAL_RAD ∨ maxOrZero nv > CRITICAL_NVME →
        (claudeCycle s (some t) nv d i ok).bind COut.action = some (100, 100) ∧
        ∀ (d₁ : ℚ) (i₁ : Nat),
          claudeCycle s (some t) nv d i ok = claudeCycle s (some t) nv d₁ i₁ ok) ∧
    (∀ (p₁ p₂ : ℚ → ℚ) (cfg : GeminiCfg) (s : GState) (tr tn d : ℚ) (i : Nat),
      (histMean (pushHist cfg.history_length s.hist_rad tr) > cfg.crit_rad ∨
       histMean (pushHist cfg.history_length s.hist_nvme tn) > cfg.crit_nvme →
        (geminiCycle p₁ p₂ cfg s (some tr) (some tn) d i).bind GOut.action
          = some (100, 100)) ∧
      (¬(histMean (pushHist cfg.history_length s.hist_rad tr) > cfg.crit_rad ∨
         histMean (pushHist cfg.history_length s.hist_nvme tn) > cfg.crit_nvme) →
        (geminiCycle p₁ p₂ cfg s (some tr) (some tn) d i).bind GOut.action
          = gchoose cfg s.q
              (⌊histMean (pushHist cfg.history_length s.hist_rad tr) / cfg.bucket_step⌋,
               ⌊histMean (pushHist cfg.history_length s.hist_nvme tn) / cfg.bucket_step⌋)
              s.eps d i)) := by
  constructor
  · intro s t nv d i ok hcrit
    exact ⟨claudeCycle_crit_action s t nv d i ok hcrit,
      fun d₁ i₁ => claudeCycle_crit_indep s t nv d d₁ i i₁ ok hcrit⟩
  · intro p₁ p₂ cfg s tr tn d i
    exact ⟨geminiCycle_crit_action p₁ p₂ cfg s tr tn d i,
      geminiCycle_noncrit_action p₁ p₂ cfg s tr tn d i⟩

/-- Witness for C1: a concrete critical `claude.py` cycle is forced to
(100, 100). -/
theorem claim_C1_emergency_override_witness :
    (claudeCycle ⟨[], [], 50, 50, 15/100, []⟩ (some 70) [] 0 0 true).bind COut.action
      = some (100, 100) :=
  (claim_C1_emergency_override.1 ⟨[], [], 50, 50, 15/100, []⟩ 70 [] 0 0 true
    (Or.inl (by norm_num [CRITICAL_RAD]))).1

/-- C9 counterexample: `gemini.py` grants the efficiency bonus under the
one-sided condition `temp < target + hysteresis`, which is not a function
of the absolute errors: with targets 35/60 and hysteresis 2/3, the
readings 32 °C and 38 °C have the same absolute radiator error 3, yet the
reward differs by exactly the efficiency bonus (granted at 32, denied at
38), so the bonus is not added "if and only if" the absolute errors lie
in fixed bands. -/
theorem claim_C9_counterexample :
    gemini_calculate_reward (fun _ => 0) (fun _ => 0)
        ⟨1/10, 9/10, 5/100, 995/1000, 0, 35, 60, 2, 3, 65, 80, 30, 100, 30, 100, 10, 5, 2⟩
        32 60 30 30
      - gemini_calculate_reward (fun _ => 0) (fun _ => 0)
        ⟨1/10, 9/10, 5/100, 995/1000, 0, 35, 60, 2, 3, 65, 80, 30, 100, 30, 100, 10, 5, 2⟩
        38 60 30 30
      = gemini_efficiency_bonus 30 30 ∧
    |(32 : ℚ) - 35| = |(38 : ℚ) - 35| ∧
    gemini_efficiency_bonus 30 30 = 14 := by
  refine ⟨?_, by norm_num, by norm_num [gemini_efficiency_bonus]⟩
  norm_num [gemini_calculate_reward, gemini_bonus_cond, gemini_efficiency_bonus]

/-- C9 (amended): in `claude.py` the efficiency bonus is added if and only
if both absolute errors are within the excellent bands (radiator error at
most 6, NVMe error at most 10), and in `gemini.py` if and only if each raw
temperature is strictly below its target plus hysteresis (a one-sided
condition); in both variants the bonus equals
(200 - rad_action - storage_action)/200 times a positive coefficient and
therefore strictly decreases as the total fan speed increases. -/
theorem claim_C9_efficiency_bonus :
    (∀ (tr tn : ℚ) (fr fc : Int),
      calculate_reward tr tn fr fc = reward_core tr tn fr fc +
        (if |tr - temp_target| ≤ 6 ∧ |tn - nvme_target| ≤ 10 then
          efficiency_bonus fr fc + (if tr ≤ temp_target ∧ tn ≤ nvme_target then 8 else 0)
        else 0)) ∧
    (∀ fr fc fr₁ fc₁ : Int, fr + fc < fr₁ + fc₁ →
      efficiency_bonus fr₁ fc₁ < efficiency_bonus fr fc) ∧
    (∀ (p₁ p₂ : ℚ → ℚ) (cfg : GeminiCfg) (tr tn : ℚ) (fr fc : Int),
      gemini_calculate_reward p₁ p₂ cfg tr tn fr fc
        = gemini_reward_core p₁ p₂ cfg tr tn fr fc +
          (if gemini_bonus_cond cfg tr tn then gemini_efficiency_bonus fr fc else 0)) ∧
    (∀ fr fc fr₁ fc₁ : Int, fr + fc < fr₁ + fc₁ →
      gemini_efficiency_bonus fr₁ fc₁ < gemini_efficiency_bonus fr fc) := by
  refine ⟨?_, ?_, ?_, ?_⟩
  · intro tr tn fr fc
    unfold calculate_reward
    by_cases h₁ : |tr - temp_target| ≤ 6 ∧ |tn - nvme_target| ≤ 10
    · rw [if_pos h₁, if_pos h₁]
      by_cases h₂ : tr ≤ temp_target ∧ tn ≤ nvme_target
      · rw [if_pos h₂, if_pos h₂]; ring
      · rw [if_neg h₂, if_neg h₂]; ring
    · rw [if_neg h₁, if_neg h₁]; ring
  · intro fr fc fr₁ fc₁ h
    unfold efficiency_bonus
    have h₁ : (fr : ℚ) + fc < fr₁ + fc₁ := by exact_mod_cast h
    linarith
  · intro p₁ p₂ cfg tr tn fr fc
    simp only [gemini_calculate_reward, gemini_reward_core]
    by_cases h₁ : gemini_bonus_cond cfg tr tn
    · rw [if_pos h₁, if_pos h₁]; ring
    · rw [if_neg h₁, if_neg h₁]; ring
  · intro fr fc fr₁ fc₁ h
    unfold gemini_efficiency_bonus
    have h₁ : (fr : ℚ) + fc < fr₁ + fc₁ := by exact_mod_cast h
    linarith

/-- Witness for C9: the bonus at total speed 60 exceeds the bonus at
total speed 80. -/
theorem claim_C9_efficiency_bonus_witness :
    efficiency_bonus 40 40 < efficiency_bonus 30 30 ∧
    gemini_efficiency_bonus 40 40 < gemini_efficiency_bonus 30 30 :=
  ⟨claim_C9_efficiency_bonus.2.1 30 30 40 40 (by norm_num),
   claim_C9_efficiency_bonus.2.2.2 30 30 40 40 (by norm_num)⟩


/-! Q-update lemmas (claim C2). -/

theorem qGet_setA_setA (q : QTable) (s : State) (a : Action) (v : ℚ)
    (inner : ActionValues) : qGet (setA s (setA a v inner) q) s a = v := by
  unfold qGet
  rw [lookupA_setA_self]
  show (lookupA a (setA a v inner)).getD 0 = v
  rw [lookupA_setA_self]
  rfl

theorem qGet_update_q_table (cfg : GeminiCfg) (q : QTable) (s : State)
    (a : Action) (r : ℚ) (s₁ : State) :
    qGet (update_q_table cfg q s a r s₁) s a
      = qGet q s a + cfg.alpha * (r + cfg.gamma * nextMax q s₁ - qGet q s a) := by
  simp only [update_q_table]
  exact qGet_setA_setA q s a _ _

theorem lookupA_ne_nil {α β : Type} [DecidableEq α] {k : α} {v : β}
    {l : List (α × β)} (h : lookupA k l = some v) : l ≠ [] := by
  intro he
  subst he
  cases h

theorem qGet_claudeQUpdate (q : QTable) (s : State) (a : Action) (r : ℚ) :
    qGet (claudeQUpdate q s a r) s a
      = qGet q s a + alpha * (r + gamma * claudeFutureMax q s a - qGet q s a) := by
  rcases hs : lookupA s q with _ | inner
  · -- state unseen: claude creates the empty inner map, then the 0.0 entry
    have e₁ : lookupA s (setA s [] q) = some [] := lookupA_setA_self s [] q
    have e₂ : lookupA s (setA s (setA a 0 []) (setA s [] q)) = some (setA a 0 [])
      := lookupA_setA_self s (setA a 0 []) (setA s [] q)
    have h₀ : qGet q s a = 0 := by unfold qGet; rw [hs]; rfl
    have hfm : claudeFutureMax q s a = 0 := by
      unfold claudeFutureMax nextMax
      rw [hs]
      simp
    have hold : (lookupA a (setA a 0 [])).getD 0 = 0 := by
      rw [lookupA_setA_self]
      rfl
    have hmv : maxVals (setA a 0 []) = 0 := rfl
    simp only [claudeQUpdate, hs, reduceCtorEq, reduceIte, e₁, Option.getD_some,
      lookupA, e₂]
    rw [qGet_setA_setA, h₀, hfm]
    simp [hmv]
  · rcases ha : lookupA a inner with _ | v
    · -- action unseen in a seen state: the fresh 0.0 entry joins the max
      have hset : setA a 0 inner = inner ++ [(a, 0)] := setA_of_not_mem a 0 inner ha
      have e₂ : lookupA s (setA s (setA a 0 inner) q) = some (setA a 0 inner)
        := lookupA_setA_self s (setA a 0 inner) q
      have hb : (lookupA s q).bind (lookupA a) = none := by rw [hs]; exact ha
      have h₀ : qGet q s a = 0 := by unfold qGet; rw [hb]; rfl
      have hold : (lookupA a (setA a 0 inner)).getD 0 = 0 := by
        rw [lookupA_setA_self]
        rfl
      have hne₂ : setA a 0 inner ≠ [] := by
        rw [hset]
        simp
      have hfm : claudeFutureMax q s a = maxVals (setA a 0 inner) := by
        unfold claudeFutureMax nextMax
        rw [hb, hs, hset, maxVals_append_single]
        rcases eq_or_ne inner [] with he | hne
        · subst he
          simp
        · simp [hne, max_comm]
      simp only [claudeQUpdate, hs, reduceCtorEq, reduceIte, ha, Option.getD_some, e₂]
      rw [qGet_setA_setA, h₀, hfm]
      simp [hne₂, hold]
    · -- both state and action already recorded
      have hne : inner ≠ [] := lookupA_ne_nil ha
      have hb : (lookupA s q).bind (lookupA a) = some v := by rw [hs]; exact ha
      have h₀ : qGet q s a = v := by unfold qGet; rw [hb]; rfl
      have hfm : claudeFutureMax q s a = maxVals inner := by
        unfold claudeFutureMax nextMax
        rw [hb, hs]
        simp [hne]
      simp only [claudeQUpdate, hs, reduceCtorEq, reduceIte, ha, Option.getD_some]
      rw [qGet_setA_setA, h₀, hfm]
      simp [hne]


/-- C2 counterexample: in `claude.py`'s inline update the freshly inserted
0.0 entry participates in the future maximum.  With Q = {(0,0): {(3,4):
-5.0}}, updating the unseen pair ((0,0), (5,6)) with reward 0 (and next
state equal to the current state, as `claude.py` always uses) leaves the
value at 0, whereas the claimed rule Q + alpha*(r + gamma*max - Q) with
max over the recorded entries of the state (that is, -5) yields -9/20. -/
theorem claim_C2_counterexample :
    qGet (claudeQUpdate [((0, 0), [((3, 4), -5)])] (0, 0) (5, 6) 0) (0, 0) (5, 6) = 0 ∧
    qGet [((0, 0), [((3, 4), -5)])] (0, 0) (5, 6)
      + alpha * (0 + gamma * nextMax [((0, 0), [((3, 4), -5)])] (0, 0)
        - qGet [((0, 0), [((3, 4), -5)])] (0, 0) (5, 6)) = -(9/20) := by
  constructor
  · norm_num [claudeQUpdate, qGet, nextMax, lookupA, setA, maxVals, maxQAux,
      alpha, gamma, Prod.mk.injEq]
  · norm_num [qGet, nextMax, lookupA, maxVals, maxQAux, alpha, gamma, Prod.mk.injEq]

/-- C2 (amended): `gemini.py`'s `update_q_table` implements the claimed
rule exactly: the new value at (s, a) is Q(s,a) + alpha * (r + gamma *
nextMax(s') - Q(s,a)), with Q(s,a) taken as 0.0 for an unseen pair and
nextMax(s') the true maximum of s''s recorded values, or 0.0 when s' has
no entries.  `claude.py`'s inline update satisfies the same equation with
`claudeFutureMax` in place of `nextMax`: the two agree whenever (s, a) is
already recorded, but for an unseen pair the inserted 0.0 entry joins the
maximum (next state being the current state there). -/
theorem claim_C2_q_update :
    (∀ (cfg : GeminiCfg) (q : QTable) (s : State) (a : Action) (r : ℚ) (s₁ : State),
      qGet (update_q_table cfg q s a r s₁) s a
        = qGet q s a + cfg.alpha * (r + cfg.gamma * nextMax q s₁ - qGet q s a)) ∧
    (∀ (q : QTable) (s₁ : State),
      (lookupA s₁ q = none → nextMax q s₁ = 0) ∧
      ∀ l, lookupA s₁ q = some l →
        (l = [] → nextMax q s₁ = 0) ∧
        (∀ p ∈ l, p.2 ≤ nextMax q s₁) ∧
        (l ≠ [] → ∃ p ∈ l, p.2 = nextMax q s₁)) ∧
    (∀ (q : QTable) (s : State) (a : Action) (r : ℚ),
      qGet (claudeQUpdate q s a r) s a
        = qGet q s a + alpha * (r + gamma * claudeFutureMax q s a - qGet q s a)) ∧
    (∀ (q : QTable) (s : State) (a : Action),
      ((lookupA s q).bind (lookupA a)).isSome →
        claudeFutureMax q s a = nextMax q s) := by
  refine ⟨qGet_update_q_table, ?_, qGet_claudeQUpdate, ?_⟩
  · intro q s₁
    constructor
    · intro h
      unfold nextMax
      rw [h]
    · intro l hl
      have hsome : nextMax q s₁ = if l = [] then 0 else maxVals l := by
        unfold nextMax
        rw [hl]
      rw [hsome]
      refine ⟨fun he => by rw [if_pos he], ?_, ?_⟩
      · intro p hp
        have hne : l ≠ [] := by
          intro he
          subst he
          cases hp
        rw [if_neg hne]
        exact maxVals_le l p hp
      · intro hne
        rw [if_neg hne]
        exact maxVals_mem l hne
  · intro q s a h
    unfold claudeFutureMax
    rw [if_pos h]

/-- Witness for C2: a concrete gemini update on an empty table from state
(0,0) and action (30,30) with reward 10 lands at alpha * 10 = 1, and the
claude future max coincides with nextMax on a recorded pair. -/
theorem claim_C2_q_update_witness :
    qGet (update_q_table
        ⟨1/10, 9/10, 5/100, 995/1000, 0, 35, 60, 2, 3, 65, 80, 30, 100, 30, 100, 10, 5, 2⟩
        [] (0, 0) (30, 30) 10 (0, 0)) (0, 0) (30, 30)
      = qGet ([] : QTable) (0, 0) (30, 30)
        + (1/10) * (10 + (9/10) * nextMax [] (0, 0) - qGet ([] : QTable) (0, 0) (30, 30)) ∧
    nextMax ([] : QTable) (0, 0) = 0 ∧
    claudeFutureMax [((0, 0), [((3, 4), -5)])] (0, 0) (3, 4)
      = nextMax [((0, 0), [((3, 4), -5)])] (0, 0) := by
  refine ⟨claim_C2_q_update.1 _ [] (0, 0) (30, 30) 10 (0, 0),
    (claim_C2_q_update.2.1 [] (0, 0)).1 rfl,
    claim_C2_q_update.2.2.2 [((0, 0), [((3, 4), -5)])] (0, 0) (3, 4) (by decide)⟩


/-- C6: for a state with no Q-table entry, or whenever the uniform draw is
below epsilon (including epsilon = 0 for the unseen-state case), action
selection takes the exploration branch: it returns the random
`possible_actions[idx]` (a member of the ActionSpace) and never fails; the
same holds for `gemini.py`'s `choose_action`.  The `claude.py` ActionSpace
has exactly 64 actions, so every `np.random.randint(64)` index is valid. -/
theorem claim_C6_policy_never_fails :
    (∀ (st : State) (q : QTable) (eps draw : ℚ) (idx : Nat),
      lookupA st q = none → idx < get_possible_actions.length →
        choose_action st q eps draw idx = get_possible_actions.get? idx ∧
        (choose_action st q eps draw idx).isSome) ∧
    (∀ (st : State) (q : QTable) (eps draw : ℚ) (idx : Nat),
      draw < eps → idx < get_possible_actions.length →
        choose_action st q eps draw idx = get_possible_actions.get? idx ∧
        (choose_action st q eps draw idx).isSome) ∧
    (∀ (st : State) (q : QTable) (eps draw : ℚ) (idx : Nat) (a : Action),
      (lookupA st q = none ∨ draw < eps) →
      choose_action st q eps draw idx = some a → a ∈ get_possible_actions) ∧
    (∀ (cfg : GeminiCfg) (st : State) (q : QTable) (eps draw : ℚ) (idx : Nat),
      lookupA st q = none → idx < (geminiActions cfg).length →
        gchoose cfg q st eps draw idx = (geminiActions cfg).get? idx ∧
        (gchoose cfg q st eps draw idx).isSome) ∧
    get_possible_actions.length = 64 := by
  refine ⟨?_, ?_, ?_, ?_, by decide⟩
  · intro st q eps draw idx h hidx
    unfold choose_action
    rw [if_pos (Or.inl h)]
    rw [List.get?_eq_get hidx]
    exact ⟨rfl, rfl⟩
  · intro st q eps draw idx h hidx
    unfold choose_action
    rw [if_pos (Or.inr h)]
    rw [List.get?_eq_get hidx]
    exact ⟨rfl, rfl⟩
  · intro st q eps draw idx a hc ha
    unfold choose_action at ha
    rw [if_pos hc] at ha
    exact List.get?_mem ha
  · intro cfg st q eps draw idx h hidx
    unfold gchoose
    rw [if_pos (Or.inl h)]
    rw [List.get?_eq_get hidx]
    exact ⟨rfl, rfl⟩

/-- Witness for C6: a never-seen state with epsilon 0 still yields the
exploration action at index 5, which exists. -/
theorem claim_C6_policy_never_fails_witness :
    choose_action (0, 0) [] 0 (1/2) 5 = get_possible_actions.get? 5 ∧
    (choose_action (0, 0) [] 0 (1/2) 5).isSome :=
  claim_C6_policy_never_fails.1 (0, 0) [] 0 (1/2) 5 rfl (by decide)

/-! Exploitation-determinism lemmas (claim C10). -/

theorem bestAux_find (t : List (Action × ℚ)) : ∀ p : Action × ℚ,
    (p :: t).find? (fun x => decide (x.2 = maxQAux (t.map Prod.snd) p.2))
      = some (t.foldl (fun b x => if x.2 > b.2 then x else b) p) := by
  induction t with
  | nil =>
    intro p
    simp [List.find?, maxQAux]
  | cons x t ih =>
    intro p
    simp only [List.map_cons, maxQAux, List.foldl_cons]
    by_cases hx : x.2 > p.2
    · have hmax : max p.2 x.2 = x.2 := max_eq_right (le_of_lt hx)
      have hlt : p.2 < maxQAux (t.map Prod.snd) x.2 :=
        lt_of_lt_of_le hx (le_maxQAux _ _)
      simp only [hmax]
      rw [if_pos hx]
      rw [List.find?_cons_of_neg _ (by simpa using ne_of_lt hlt)]
      exact ih x
    · have hmax : max p.2 x.2 = p.2 := max_eq_left (not_lt.mp hx)
      simp only [hmax]
      rw [if_neg hx]
      by_cases hp : p.2 = maxQAux (t.map Prod.snd) p.2
      · have hIH := ih p
        rw [List.find?_cons_of_pos _ (by simpa using hp)] at hIH
        rw [List.find?_cons_of_pos _ (by simpa using hp)]
        exact hIH
      · have hxle : x.2 ≤ p.2 := not_lt.mp hx
        have hple : p.2 ≤ maxQAux (t.map Prod.snd) p.2 := le_maxQAux _ _
        have hxlt : x.2 < maxQAux (t.map Prod.snd) p.2 :=
          lt_of_le_of_lt hxle (lt_of_le_of_ne hple hp)
        have hIH := ih p
        rw [List.find?_cons_of_neg _ (by simpa using hp)] at hIH
        rw [List.find?_cons_of_neg _ (by simpa using hp)]
        rw [List.find?_cons_of_neg _ (by simpa using ne_of_lt hxlt)]
        exact hIH

/-- C10: the exploitation branch is deterministic and returns the first
action in the state's insertion-order action map whose value equals the
maximum recorded value: Python's `max(d, key=d.get)` only replaces the
running best on a strictly greater value, so earlier entries win ties.
Consequently `choose_action` in the exploitation branch equals a pure
first-maximum lookup, and equal tables give equal results. -/
theorem claim_C10_exploitation_first_max :
    (∀ l : ActionValues, l ≠ [] →
      pyMaxByVal l = (l.find? (fun p => decide (p.2 = maxVals l))).map Prod.fst) ∧
    (∀ (st : State) (q : QTable) (eps draw : ℚ) (idx : Nat) (inner : ActionValues),
      lookupA st q = some inner → inner ≠ [] → ¬(draw < eps) →
        choose_action st q eps draw idx
          = (inner.find? (fun p => decide (p.2 = maxVals inner))).map Prod.fst) := by
  have hmain : ∀ l : ActionValues, l ≠ [] →
      pyMaxByVal l = (l.find? (fun p => decide (p.2 = maxVals l))).map Prod.fst := by
    intro l hne
    match l, hne with
    | p :: t, _ =>
      have hmv : maxVals (p :: t) = maxQAux (t.map Prod.snd) p.2 := rfl
      rw [hmv, bestAux_find t p]
      rfl
  refine ⟨hmain, ?_⟩
  intro st q eps draw idx inner h hne hd
  unfold choose_action
  rw [if_neg ?_]
  · rw [h]
    exact hmain inner hne
  · intro hc
    rcases hc with hc | hc
    · rw [h] at hc
      cases hc
    · exact hd hc

/-- Witness for C10: on a concrete action map with a tied maximum 7, the
exploitation result is the earlier tied entry (40, 40). -/
theorem claim_C10_exploitation_first_max_witness :
    pyMaxByVal [((30, 30), 3), ((40, 40), 7), ((50, 50), 7)]
      = (List.find? (fun p => decide (p.2 = maxVals
          [((30, 30), 3), ((40, 40), 7), ((50, 50), 7)]))
          [((30, 30), 3), ((40, 40), 7), ((50, 50), 7)]).map Prod.fst :=
  claim_C10_exploitation_first_max.1
    [((30, 30), 3), ((40, 40), 7), ((50, 50), 7)] (by decide)


/-! Serialization lemmas (claim C5): the decimal key encoding is
reversible and the save/load pair is a round trip. -/

theorem charToDigit_digitChar {d : Nat} (h : d < 10) :
    charToDigit (Nat.digitChar d) = some d := by
  interval_cases d <;> decide

theorem digitChar_ne_und {d : Nat} (h : d < 10) : Nat.digitChar d ≠ '_' := by
  interval_cases d <;> decide

theorem digitChar_ne_neg {d : Nat} (h : d < 10) : Nat.digitChar d ≠ '-' := by
  interval_cases d <;> decide

theorem foldl_digits (l : List Nat) (a : Nat) :
    List.foldl (fun acc d => acc * 10 + d) a l.reverse
      = a * 10 ^ l.length + Nat.ofDigits 10 l := by
  induction l generalizing a with
  | nil => simp
  | cons d t ih =>
    simp only [List.reverse_cons, List.foldl_append, List.foldl_cons, List.foldl_nil,
      List.length_cons, Nat.ofDigits_cons]
    rw [ih a]
    ring

theorem foldl_parse (l : List Nat) (hl : ∀ d ∈ l, d < 10) (a : Nat) :
    List.foldl (fun acc c => acc.bind (fun x => (charToDigit c).map (fun d => x * 10 + d)))
      (some a) (l.map Nat.digitChar)
      = some (List.foldl (fun acc d => acc * 10 + d) a l) := by
  induction l generalizing a with
  | nil => rfl
  | cons d t ih =>
    simp only [List.map_cons, List.foldl_cons]
    rw [charToDigit_digitChar (hl d (List.mem_cons_self d t))]
    exact ih (fun x hx => hl x (List.mem_cons_of_mem d hx)) (a * 10 + d)

theorem parseNat_natChars (n : Nat) : parseNatChars (natChars n) = some n := by
  by_cases h0 : n = 0
  · subst h0
    decide
  · have hdig : Nat.digits 10 n ≠ [] := Nat.digits_ne_nil_iff_ne_zero.mpr h0
    have hlt : ∀ d ∈ (Nat.digits 10 n).reverse, d < 10 := fun d hd =>
      Nat.digits_lt_base (by norm_num) (List.mem_reverse.mp hd)
    unfold natChars parseNatChars
    rw [if_neg h0]
    have hne₂ : ((Nat.digits 10 n).map Nat.digitChar).reverse ≠ [] := by
      simp [hdig]
    rw [if_neg hne₂]
    rw [← List.map_reverse]
    rw [foldl_parse _ hlt 0]
    rw [foldl_digits (Nat.digits 10 n) 0]
    simp [Nat.ofDigits_digits]

theorem mem_natChars_digit (n : Nat) : ∀ c ∈ natChars n, ∃ d, d < 10 ∧ c = Nat.digitChar d := by
  intro c hc
  unfold natChars at hc
  by_cases h0 : n = 0
  · rw [if_pos h0] at hc
    simp only [List.mem_singleton] at hc
    exact ⟨0, by norm_num, by rw [hc]; rfl⟩
  · rw [if_neg h0] at hc
    rw [List.mem_reverse] at hc
    rcases List.mem_map.mp hc with ⟨d, hd, he⟩
    exact ⟨d, Nat.digits_lt_base (by norm_num) hd, he.symm⟩

theorem und_not_mem_natChars (n : Nat) : '_' ∉ natChars n := by
  intro h
  rcases mem_natChars_digit n _ h with ⟨d, hd, he⟩
  exact digitChar_ne_und hd he.symm

theorem neg_not_mem_natChars (n : Nat) : '-' ∉ natChars n := by
  intro h
  rcases mem_natChars_digit n _ h with ⟨d, hd, he⟩
  exact digitChar_ne_neg hd he.symm

theorem natChars_ne_nil (n : Nat) : natChars n ≠ [] := by
  unfold natChars
  by_cases h0 : n = 0
  · rw [if_pos h0]
    simp
  · rw [if_neg h0]
    simp [Nat.digits_ne_nil_iff_ne_zero.mpr h0]

theorem parseInt_intChars (i : Int) : parseIntChars (intChars i) = some i := by
  unfold intChars
  by_cases hneg : i < 0
  · rw [if_pos hneg]
    simp only [parseIntChars, reduceIte]
    rw [parseNat_natChars]
    show some (-(i.natAbs : Int)) = some i
    congr 1
    omega
  · rw [if_neg hneg]
    obtain ⟨c, t, hct⟩ : ∃ c t, natChars i.toNat = c :: t := by
      rcases hnil : natChars i.toNat with _ | ⟨c, t⟩
      · exact absurd hnil (natChars_ne_nil _)
      · exact ⟨c, t, rfl⟩
    have hcne : c ≠ '-' := by
      intro he
      apply neg_not_mem_natChars i.toNat
      rw [hct, he]
      exact List.mem_cons_self _ _
    rw [hct]
    simp only [parseIntChars]
    rw [if_neg hcne]
    rw [← hct, parseNat_natChars]
    show some ((i.toNat : Int)) = some i
    congr 1
    omega

theorem und_not_mem_intChars (i : Int) : '_' ∉ intChars i := by
  unfold intChars
  by_cases h : i < 0
  · rw [if_pos h]
    intro hm
    rcases List.mem_cons.mp hm with he | hm₁
    · cases he
    · exact und_not_mem_natChars _ hm₁
  · rw [if_neg h]
    exact und_not_mem_natChars _

theorem splitUnd_no_sep (as : List Char) (h : '_' ∉ as) : splitUnd as = [as] := by
  induction as with
  | nil => rfl
  | cons c t ih =>
    have hc : c ≠ '_' := fun he => h (he ▸ List.mem_cons_self c t)
    have ht : '_' ∉ t := fun hm => h (List.mem_cons_of_mem c hm)
    simp only [splitUnd]
    rw [if_neg hc, ih ht]

theorem splitUnd_append (as bs : List Char) (h : '_' ∉ as) :
    splitUnd (as ++ '_' :: bs) = as :: splitUnd bs := by
  induction as with
  | nil => simp [splitUnd]
  | cons c t ih =>
    have hc : c ≠ '_' := fun he => h (he ▸ List.mem_cons_self c t)
    have ht : '_' ∉ t := fun hm => h (List.mem_cons_of_mem c hm)
    simp only [List.cons_append, splitUnd, List.append_eq]
    rw [if_neg hc, ih ht]

theorem strToKey_keyChars (p : Int × Int) : strToKey (keyChars p) = some p := by
  unfold keyChars strToKey
  rw [splitUnd_append _ _ (und_not_mem_intChars p.1)]
  rw [splitUnd_no_sep _ (und_not_mem_intChars p.2)]
  simp [parseInt_intChars]

theorem loadInner_saveInner {V : Type} (acts : List ((Int × Int) × V)) :
    loadInner (acts.map (fun av => (keyChars av.1, av.2))) = some acts := by
  induction acts with
  | nil => rfl
  | cons av t ih =>
    simp only [List.map_cons, loadInner]
    rw [strToKey_keyChars, ih]
    rfl

/-- C5: saving a Q-table and loading the result reproduces an equal table:
the underscore-joined decimal key encoding of integer pairs is
deterministic and reversible (decode of encode is the identity, including
negative components), and every value passes through unchanged (Python's
json round-trips each float exactly). -/
theorem claim_C5_save_load_roundtrip :
    (∀ p : Int × Int, strToKey (keyChars p) = some p) ∧
    (∀ (V : Type) (q : List ((Int × Int) × List ((Int × Int) × V))),
      loadTable (saveTable q) = some q) := by
  refine ⟨strToKey_keyChars, ?_⟩
  intro V q
  induction q with
  | nil => rfl
  | cons sv t ih =>
    simp only [saveTable, List.map_cons, loadTable]
    rw [strToKey_keyChars, loadInner_saveInner]
    simp only [saveTable] at ih
    rw [ih]
    rfl

end FanMonitor
